import Mathlib

/-!
Shallow embedding of scripts/runners/dcgan.py (foodgan repository).

Tensors are modelled as nested lists of rationals in (batch, channel,
height, width) order; numpy draws from [0, 1) become explicit rational
parameters; Python int() truncation becomes pyInt.
-/

namespace FoodGan

/-- A rank-4 image tensor: batch of channels of rows of rational pixel values. -/
abbrev Img := List (List (List (List ℚ)))

/-- The tensor t is rectangular with dimensions (b, c, h, w). -/
def isRect4 (t : Img) (b c h w : ℕ) : Prop :=
  t.length = b ∧ ∀ ch ∈ t, ch.length = c ∧ ∀ im ∈ ch, im.length = h ∧ ∀ row ∈ im, row.length = w

instance (t : Img) (b c h w : ℕ) : Decidable (isRect4 t b c h w) := by
  unfold isRect4; infer_instance

/-- torch.flip(tensor, dims=(3,)): reverse the innermost (width) dimension. -/
def flip3 (t : Img) : Img :=
  t.map fun ch => ch.map fun im => im.map List.reverse

/-- Python int(): truncation toward zero on a rational. -/
def pyInt (q : ℚ) : ℤ := if 0 ≤ q then ⌊q⌋ else -⌊-q⌋

/-- np.random.uniform(a, b) realised from a unit draw u: a + u * (b - a). -/
def uniform (a b u : ℚ) : ℚ := a + u * (b - a)

/-- The crop offset drawn in random_crop_and_resize: int(np.random.random() * dsize),
with u the unit draw from [0, 1). -/
def cropOffset (u : ℚ) (dsize : ℕ) : ℕ := (pyInt (u * dsize)).toNat

/-- Python slice l[a:b] for 0 ≤ a ≤ b. -/
def slice2 (a b : ℕ) (l : List α) : List α := (l.drop a).take (b - a)

/-- images.shape[-1]: the length of the innermost dimension. -/
def lastDimSize (t : Img) : ℕ := (((t.headD []).headD []).headD []).length

/-- Source coordinate used by F.interpolate(mode="bilinear", align_corners=True):
out index i maps to i * (inSize - 1) / (outSize - 1), and to 0 when outSize ≤ 1. -/
def srcCoord (outSize inSize : ℕ) (i : ℕ) : ℚ :=
  if outSize ≤ 1 then 0 else (i : ℚ) * ((inSize : ℚ) - 1) / ((outSize : ℚ) - 1)

/-- One bilinear sample of a 2-d image at output position (i, j). -/
def interpVal (im : List (List ℚ)) (inH inW outSize : ℕ) (i j : ℕ) : ℚ :=
  let y := srcCoord outSize inH i
  let x := srcCoord outSize inW j
  let y0 := (⌊y⌋).toNat
  let x0 := (⌊x⌋).toNat
  let y1 := min (y0 + 1) (inH - 1)
  let x1 := min (x0 + 1) (inW - 1)
  let ty : ℚ := y - (y0 : ℚ)
  let tx : ℚ := x - (x0 : ℚ)
  let v : ℕ → ℕ → ℚ := fun a b => (im.getD a []).getD b 0
  (1 - ty) * (1 - tx) * v y0 x0 + (1 - ty) * tx * v y0 x1 +
    ty * (1 - tx) * v y1 x0 + ty * tx * v y1 x1

/-- F.interpolate to size (outSize, outSize), bilinear, align_corners=True,
acting on one 2-d image. Faithful for inputs with positive spatial sizes;
on a zero-size input PyTorch raises RuntimeError instead of returning a
tensor, which random_crop_and_resizeE models explicitly. -/
def interp2d (outSize : ℕ) (im : List (List ℚ)) : List (List ℚ) :=
  let inH := im.length
  let inW := (im.headD []).length
  (List.range outSize).map fun i => (List.range outSize).map fun j =>
    interpVal im inH inW outSize i j

/-- AugWrapper.random_crop_and_resize(images, scale); uh and uw are the two
np.random.random() unit draws for the top and left offsets. -/
def random_crop_and_resize (images : Img) (scale uh uw : ℚ) : Img :=
  let size := lastDimSize images
  let new_size := (pyInt ((size : ℚ) * scale)).toNat
  let dsize := size - new_size
  let h0 := cropOffset uh dsize
  let h1 := h0 + new_size
  let w0 := cropOffset uw dsize
  let w1 := w0 + new_size
  let cropped := images.map fun ch => ch.map fun im =>
    (slice2 h0 h1 im).map (slice2 w0 w1)
  cropped.map fun ch => ch.map (interp2d size)

/-- AugWrapper.random_crop_and_resize with the error behavior of
F.interpolate made explicit: PyTorch raises
RuntimeError (Input and output sizes should be greater than 0) when the
cropped input or the requested output has a zero spatial side. The crop has
spatial sides new_size and the requested output is (size, size); otherwise
the call returns the tensor computed by random_crop_and_resize. -/
def random_crop_and_resizeE (images : Img) (scale uh uw : ℚ) : Except String Img :=
  let size := lastDimSize images
  let new_size := (pyInt ((size : ℚ) * scale)).toNat
  if new_size = 0 ∨ size = 0 then
    Except.error "RuntimeError: Input and output sizes should be greater than 0"
  else
    Except.ok (random_crop_and_resize images scale uh uw)

/-- AugWrapper.random_hflip(tensor, prob); u is the np.random.random() draw:
return tensor unflipped when prob > u, otherwise the flipped tensor. -/
def random_hflip (tensor : Img) (prob u : ℚ) : Img :=
  if prob > u then tensor else flip3 tensor

/-- The random draws consumed by one AugWrapper.forward call, each from [0, 1). -/
structure Draws where
  gate : ℚ
  flipU : ℚ
  scaleU : ℚ
  hU : ℚ
  wU : ℚ

/-- AugWrapper holds only the wrapped discriminator and the augmentation
probability; __init__ receives image_size but never stores it. -/
structure AugWrapper (α : Type) where
  D : Img → α
  prob : ℚ

/-- AugWrapper.__init__(D, image_size, prob): image_size is discarded. -/
def AugWrapper.init (D : Img → α) (image_size : ℕ) (prob : ℚ) : AugWrapper α :=
  ⟨D, prob⟩

/-- AugWrapper.forward(images): with probability prob apply hflip (prob 0.5)
then random crop-and-resize with scale uniform in [0.75, 0.95], else pass
through; score with the wrapped discriminator. -/
def AugWrapper.forward (w : AugWrapper α) (images : Img) (d : Draws) : α :=
  if d.gate < w.prob then
    let random_scale := uniform (3/4) (19/20) d.scaleU
    let flipped := random_hflip images (1/2) d.flipU
    w.D (random_crop_and_resize flipped random_scale d.hU d.wU)
  else
    w.D images

/-- A tiny concrete asymmetric 1 by 1 by 1 by 2 image used as a probe. -/
def probeImg : Img := [[[[1, 2]]]]

/-! ### Heap model for the frame property of AugWrapper.forward

Tensor objects live in a store; every torch operation in the source either
returns an existing object unchanged (random_hflip's pass-through branch),
or allocates a fresh one (torch.flip, .clone() of the sliced view,
F.interpolate, the discriminator output). No operation in the source writes
through an existing reference. -/

/-- A store of tensor objects; a reference is an index into it. -/
abbrev Store := List Img

/-- Read the tensor object a reference points to. -/
def readS (s : Store) (r : ℕ) : Img := s.getD r []

/-- Allocate a fresh tensor object and return its reference. -/
def allocS (s : Store) (v : Img) : Store × ℕ := (s ++ [v], s.length)

/-- random_hflip at store level: the pass-through branch returns the very
same object; torch.flip allocates a fresh tensor. -/
def hflipS (s : Store) (r : ℕ) (prob u : ℚ) : Store × ℕ :=
  if prob > u then (s, r) else allocS s (flip3 (readS s r))

/-- random_crop_and_resize at store level: the slice is a read-only view,
.clone() and F.interpolate allocate; one fresh object results. -/
def cropResizeS (s : Store) (r : ℕ) (scale uh uw : ℚ) : Store × ℕ :=
  allocS s (random_crop_and_resize (readS s r) scale uh uw)

/-- AugWrapper.forward at store level, with the discriminator Df producing a
freshly allocated output tensor. -/
def forwardS (Df : Img → Img) (p : ℚ) (s : Store) (r : ℕ) (d : Draws) : Store × ℕ :=
  if d.gate < p then
    let s1 := (hflipS s r (1/2) d.flipU).1
    let r1 := (hflipS s r (1/2) d.flipU).2
    let s2 := (cropResizeS s1 r1 (uniform (3/4) (19/20) d.scaleU) d.hU d.wU).1
    let r2 := (cropResizeS s1 r1 (uniform (3/4) (19/20) d.scaleU) d.hU d.wU).2
    allocS s2 (Df (readS s2 r2))
  else
    allocS s (Df (readS s r))

/-! ### Dataset model: Runner.create_dataset

create_dataset wraps the underlying ImageFolder dataset in
ConcatDataset([dataset] * ds_repeat). ConcatDataset keeps the list of
datasets, precomputes cumulative sizes, and resolves an index with
bisect.bisect_right. -/

/-- A dataset: a length and an indexed access function. -/
structure Dataset (α : Type) where
  len : ℕ
  get : ℕ → α

instance [Inhabited α] : Inhabited (Dataset α) := ⟨⟨0, fun _ => default⟩⟩

/-- Cumulative sizes as built by ConcatDataset.cumsum: entry k is the sum of
the first k+1 lengths. -/
def cumsum (l : List ℕ) : List ℕ :=
  (List.range l.length).map fun k => (l.take (k + 1)).sum

/-- bisect.bisect_right on a sorted list: the number of elements ≤ x. -/
def bisectRight (a : List ℕ) (x : ℕ) : ℕ := a.countP fun e => e ≤ x

/-- ConcatDataset.__getitem__: locate the containing dataset with
bisect_right on the cumulative sizes, then index into it. -/
def concatGet [Inhabited α] (ds : List (Dataset α)) (idx : ℕ) : α :=
  let cum := cumsum (ds.map (·.len))
  let di := bisectRight cum idx
  let si := if di = 0 then idx else idx - cum.getD (di - 1) 0
  (ds.getD di default).get si

/-- ConcatDataset: total length is the sum of the member lengths. -/
def concatDataset [Inhabited α] (ds : List (Dataset α)) : Dataset α :=
  ⟨(ds.map (·.len)).sum, concatGet ds⟩

/-- Runner.create_dataset: ConcatDataset([dataset] * ds_repeat). -/
def create_dataset [Inhabited α] (d : Dataset α) (ds_repeat : ℕ) : Dataset α :=
  concatDataset (List.replicate ds_repeat d)

/-! ### Visualization hook: Runner.initialize.plot

Runner.create_model sets self.last_generated = None before any generator
forward pass; the forward hook overwrites it with the generator output.
The plot callback evaluates self.last_generated[:16] unguarded, so when
last_generated is still None, Python raises TypeError (subscripting None);
the embedding returns that error through Except. -/

/-- One call into the logging sink. -/
inductive LogEvent
  | addImages (tag : String) (images : Img)
  | render (iteration : ℕ)
deriving DecidableEq

/-- (x + 0.5).clamp(0, 1) applied elementwise. -/
def shiftClamp (t : Img) : Img :=
  t.map fun ch => ch.map fun im => im.map fun row => row.map fun q =>
    min (max (q + 1/2) 0) 1

/-- The value of self.last_generated set in Runner.create_model, before any
generator forward pass. -/
def initial_last_generated : Option Img := Option.none

/-- The plot callback appended to events.iteration_completed: when
iteration % plot_every == 0, emit the first 16 captured images shifted and
clamped, then render; subscripting a missing batch raises TypeError. -/
def plot (last_generated : Option Img) (plot_every iteration : ℕ) :
    Except String (List LogEvent) :=
  if iteration % plot_every = 0 then
    match last_generated with
    | Option.none => Except.error "TypeError: NoneType object is not subscriptable"
    | Option.some g =>
        Except.ok [LogEvent.addImages "generated" (shiftClamp (g.take 16)),
                   LogEvent.render iteration]
  else
    Except.ok []

/-! ## Helper lemmas -/

/-- Flipping the width dimension twice is the identity. -/
theorem flip3_flip3 (t : Img) : flip3 (flip3 t) = t := by
  simp [flip3, List.map_map, Function.comp_def]

/-- Reading below the old length is unaffected by an allocation. -/
theorem readS_append (s : Store) (v : Img) (r : ℕ) (h : r < s.length) :
    readS (s ++ [v]) r = readS s r := by
  unfold readS
  rw [List.getD_append _ _ _ _ h]

/-- On a nonempty rectangular tensor, images.shape[-1] is the width. -/
theorem lastDimSize_eq (t : Img) (b c h w : ℕ) (ht : isRect4 t b c h w)
    (hb : 0 < b) (hc : 0 < c) (hh : 0 < h) : lastDimSize t = w := by
  obtain ⟨hlen, hch⟩ := ht
  cases t with
  | nil => simp at hlen; omega
  | cons ch0 t2 =>
    obtain ⟨hc0, him⟩ := hch ch0 (List.mem_cons_self ch0 t2)
    cases ch0 with
    | nil => simp at hc0; omega
    | cons im0 ch2 =>
      obtain ⟨hi0, hrow⟩ := him im0 (List.mem_cons_self im0 ch2)
      cases im0 with
      | nil => simp at hi0; omega
      | cons row0 im2 =>
        have := hrow row0 (List.mem_cons_self row0 im2)
        simp [lastDimSize, this]

/-- interp2d always produces an outSize by outSize grid. -/
theorem interp2d_shape (m : ℕ) (im : List (List ℚ)) :
    (interp2d m im).length = m ∧ ∀ row ∈ interp2d m im, row.length = m := by
  constructor
  · simp [interp2d]
  · intro row hrow
    simp only [interp2d, List.mem_map, List.mem_range] at hrow
    obtain ⟨i, _, rfl⟩ := hrow
    simp

/-- random_crop_and_resize preserves rectangular (b, c, n, n) dimensions:
the interpolation target is always (size, size) with size the input width. -/
theorem crop_resize_rect (t : Img) (b c n : ℕ) (s uh uw : ℚ)
    (ht : isRect4 t b c n n) (hn : 1 ≤ n) :
    isRect4 (random_crop_and_resize t s uh uw) b c n n := by
  obtain ⟨hlen, hch⟩ := ht
  simp only [random_crop_and_resize]
  constructor
  · simp [hlen]
  · intro ch2 hmem
    simp only [List.map_map, List.mem_map, Function.comp_apply] at hmem
    obtain ⟨ch, hchmem, rfl⟩ := hmem
    obtain ⟨hclen, him⟩ := hch ch hchmem
    constructor
    · simp [hclen]
    · intro im2 hmem2
      simp only [List.map_map, List.mem_map, Function.comp_apply] at hmem2
      obtain ⟨im, himmem, rfl⟩ := hmem2
      have hb : 0 < b := by
        rw [← hlen]
        exact List.length_pos.mpr (List.ne_nil_of_mem hchmem)
      have hc : 0 < c := by
        rw [← hclen]
        exact List.length_pos.mpr (List.ne_nil_of_mem himmem)
      have hsize : lastDimSize t = n :=
        lastDimSize_eq t b c n n ⟨hlen, hch⟩ hb hc (by omega)
      rw [hsize]
      exact ⟨(interp2d_shape n _).1, (interp2d_shape n _).2⟩

/-- A full slice from 0 to the length is the identity. -/
theorem slice2_full {β : Type} (l : List β) (m : ℕ) (h : l.length = m) :
    slice2 0 m l = l := by
  simp only [slice2, List.drop_zero, Nat.sub_zero]
  rw [← h, List.take_length]

/-- Bilinear resampling of an n by n image to size n reads back the pixel
itself: with align_corners the source coordinate of output (i, j) is
exactly (i, j) and the fractional weights vanish. -/
theorem interpVal_id (im : List (List ℚ)) (n i j : ℕ) (hn : 1 ≤ n)
    (hi : i < n) (hj : j < n) :
    interpVal im n n n i j = (im.getD i []).getD j 0 := by
  simp only [interpVal, srcCoord]
  by_cases hone : n ≤ 1
  · have hn1 : n = 1 := by omega
    subst hn1
    have hi0 : i = 0 := by omega
    have hj0 : j = 0 := by omega
    subst hi0
    subst hj0
    norm_num
  · simp only [if_neg hone]
    have hne1 : ((n : ℚ) - 1) ≠ 0 := by
      have h1 : (1 : ℚ) < (n : ℚ) := by exact_mod_cast (by omega : 1 < n)
      intro habs
      linarith
    have hcoord : ∀ m : ℕ, (m : ℚ) * ((n : ℚ) - 1) / ((n : ℚ) - 1) = (m : ℚ) := by
      intro m
      rw [mul_div_assoc, div_self hne1, mul_one]
    simp only [hcoord, Int.floor_natCast, Int.toNat_natCast, sub_self,
      zero_mul, mul_zero, one_mul, mul_one, add_zero, sub_zero, zero_add]

/-- Resizing a rectangular n by n image to (n, n) with align_corners
bilinear interpolation is the identity. -/
theorem interp2d_id (im : List (List ℚ)) (n : ℕ) (hn : 1 ≤ n)
    (hlen : im.length = n) (hrow : ∀ row ∈ im, row.length = n) :
    interp2d n im = im := by
  have hinW : (im.headD []).length = n := by
    cases im with
    | nil => rw [List.length_nil] at hlen; omega
    | cons r rest => simpa using hrow r (List.mem_cons_self r rest)
  simp only [interp2d, hlen, hinW]
  apply List.ext_getElem
  · simp [hlen]
  · intro i h1 h2
    simp only [List.getElem_map, List.getElem_range]
    have hrilen : (im[i]).length = n := hrow _ (List.getElem_mem _)
    apply List.ext_getElem
    · simp [hrilen]
    · intro j hj1 hj2
      simp only [List.getElem_map, List.getElem_range]
      rw [interpVal_id im n i j hn (by omega) (by rw [← hrilen]; exact hj2)]
      rw [List.getD_eq_getElem _ _ h2, List.getD_eq_getElem _ _ hj2]

/-- Counting elements of range R below m. -/
theorem countP_range_lt (R m : ℕ) :
    (List.range R).countP (fun k => k < m) = min R m := by
  induction R with
  | zero => simp
  | succ n ih =>
    rw [List.range_succ, List.countP_append, ih]
    simp only [List.countP_cons, List.countP_nil, decide_eq_true_eq]
    by_cases h : n < m
    · rw [if_pos h]
      omega
    · rw [if_neg h]
      omega

/-- The cumulative sizes of R copies of a length-L dataset. -/
theorem cumsum_replicate (R L : ℕ) :
    cumsum (List.replicate R L) = (List.range R).map (fun k => (k + 1) * L) := by
  unfold cumsum
  rw [List.length_replicate]
  apply List.map_congr_left
  intro k hk
  rw [List.mem_range] at hk
  rw [List.take_replicate, List.sum_replicate, smul_eq_mul]
  congr 1
  omega

/-- bisect_right over the cumulative sizes of R equal blocks finds the
block index i / L. -/
theorem bisect_cumsum (L R i : ℕ) (hL : 0 < L) (hi : i < L * R) :
    bisectRight (cumsum (List.replicate R L)) i = i / L := by
  rw [cumsum_replicate]
  unfold bisectRight
  rw [List.countP_map]
  have hcong : ∀ k ∈ List.range R,
      (((fun e => decide (e ≤ i)) ∘ fun k => (k + 1) * L) k = true ↔
        (fun k => decide (k < i / L)) k = true) := by
    intro k _
    simp only [Function.comp_apply, decide_eq_true_eq]
    rw [Nat.lt_iff_add_one_le, Nat.le_div_iff_mul_le hL]
  rw [List.countP_congr hcong, countP_range_lt]
  have : i / L < R := by
    rw [Nat.div_lt_iff_lt_mul hL, mul_comm]
    exact hi
  omega

/-- Index resolution through ConcatDataset over R copies of one dataset:
index i resolves to underlying index i mod len. -/
theorem concatGet_replicate {α : Type} [Inhabited α] (d : Dataset α) (R i : ℕ)
    (hL : 0 < d.len) (hi : i < d.len * R) :
    (create_dataset d R).get i = d.get (i % d.len) := by
  have hdiv : i / d.len < R := by
    rw [Nat.div_lt_iff_lt_mul hL, mul_comm]
    exact hi
  simp only [create_dataset, concatDataset, concatGet, List.map_replicate]
  rw [bisect_cumsum d.len R i hL hi]
  rw [List.getD_eq_getElem _ _ (by simpa using hdiv), List.getElem_replicate]
  by_cases h0 : i / d.len = 0
  · rw [if_pos h0]
    have hlt : i < d.len := by
      by_contra hge
      push_neg at hge
      have h1 : 1 ≤ i / d.len := (Nat.one_le_div_iff hL).mpr hge
      omega
    rw [Nat.mod_eq_of_lt hlt]
  · rw [if_neg h0, cumsum_replicate]
    have hlt1 : i / d.len - 1 < R := lt_of_le_of_lt (Nat.sub_le _ _) hdiv
    rw [List.getD_eq_getElem _ _ (by simpa using hlt1), List.getElem_map,
      List.getElem_range]
    have he : i / d.len - 1 + 1 = i / d.len :=
      Nat.sub_add_cancel (Nat.pos_of_ne_zero h0)
    rw [he, mul_comm]
    congr 1
    have := Nat.div_add_mod i d.len
    omega

/-! ## Claim theorems -/

/-- C1. The claim says the plot hook is silently skipped when it fires while
last_generated is still None; the code instead evaluates None[:16] and
raises TypeError. This theorem evaluates the embedded hook at the failing
input (iteration 0, plot_every 100, no captured batch): it errors rather
than skipping. -/
theorem plot_before_capture_raises :
    plot initial_last_generated 100 0 =
      Except.error "TypeError: NoneType object is not subscriptable" := rfl

/-- C2 counterexample. The claim asserts every offset in the permissible set
up to and including dsize is reachable; with dsize = 2 no draw u in [0, 1)
yields offset 2, since int(u * 2) ≤ 1. -/
theorem crop_offset_counterexample :
    ¬ ∃ u : ℚ, 0 ≤ u ∧ u < 1 ∧ cropOffset u 2 = 2 := by
  rintro ⟨u, h0, h1, he⟩
  have hq : (0 : ℚ) ≤ u * ((2 : ℕ) : ℚ) := mul_nonneg h0 (by norm_num)
  have hfl : ⌊u * ((2 : ℕ) : ℚ)⌋ < 2 := by
    apply Int.floor_lt.mpr
    push_cast
    nlinarith
  unfold cropOffset pyInt at he
  rw [if_pos hq] at he
  omega

/-- C2 amended. The offsets drawn by random_crop_and_resize cover exactly
the set from 0 to dsize − 1: every value below dsize is produced by some
draw in [0, 1), and every draw in [0, 1) produces a value below dsize — the
maximal permissible offset dsize itself is never drawn. -/
theorem crop_offset_range (d : ℕ) (hd : 0 < d) :
    (∀ v, v < d → ∃ u : ℚ, 0 ≤ u ∧ u < 1 ∧ cropOffset u d = v) ∧
    (∀ u : ℚ, 0 ≤ u → u < 1 → cropOffset u d < d) := by
  have hdq : (0 : ℚ) < (d : ℚ) := by exact_mod_cast hd
  constructor
  · intro v hv
    refine ⟨(v : ℚ) / (d : ℚ), by positivity, ?_, ?_⟩
    · rw [div_lt_one hdq]
      exact_mod_cast hv
    · unfold cropOffset pyInt
      rw [div_mul_cancel₀ _ hdq.ne']
      rw [if_pos (by positivity)]
      simp
  · intro u hu0 hu1
    unfold cropOffset pyInt
    rw [if_pos (mul_nonneg hu0 hdq.le)]
    have hfl : ⌊u * (d : ℚ)⌋ < (d : ℤ) := by
      apply Int.floor_lt.mpr
      push_cast
      nlinarith
    omega

/-- C2 witness: the amended coverage statement instantiated at dsize = 2. -/
theorem crop_offset_range_witness :
    0 < 2 ∧
    ((∀ v, v < 2 → ∃ u : ℚ, 0 ≤ u ∧ u < 1 ∧ cropOffset u 2 = v) ∧
     (∀ u : ℚ, 0 ≤ u → u < 1 → cropOffset u 2 < 2)) :=
  ⟨by decide, crop_offset_range 2 (by decide)⟩

/-- C3 counterexample. The claim says random_hflip returns the original
exactly when the draw exceeds prob and the flipped tensor otherwise; with
prob = 1/2 and draw 1/4 the draw does not exceed prob, yet the code returns
the original (unflipped, distinct from its flip). -/
theorem random_hflip_claim_counterexample :
    random_hflip probeImg (1/2) (1/4) = probeImg ∧
    flip3 probeImg ≠ probeImg ∧ ¬ ((1/4 : ℚ) > (1/2 : ℚ)) := by
  refine ⟨?_, by decide, by norm_num⟩
  unfold random_hflip
  rw [if_pos (by norm_num)]

/-- C3 amended. random_hflip returns the unflipped tensor exactly when
prob exceeds the draw (draw < prob) and the flipped tensor otherwise; the
named probability parameter is thus the probability of NOT flipping. -/
theorem random_hflip_unflipped_iff (t : Img) (p u : ℚ) (hne : flip3 t ≠ t) :
    (random_hflip t p u = t ↔ p > u) ∧
    (random_hflip t p u = flip3 t ↔ ¬ p > u) := by
  unfold random_hflip
  constructor
  · constructor
    · intro he
      by_contra h
      rw [if_neg h] at he
      exact hne he
    · intro h
      rw [if_pos h]
  · constructor
    · intro he h
      rw [if_pos h] at he
      exact hne he.symm
    · intro h
      rw [if_neg h]

/-- C3 witness: the amended characterisation at a concrete asymmetric
tensor, prob = 1/2 and draw = 1/4. -/
theorem random_hflip_unflipped_iff_witness :
    flip3 probeImg ≠ probeImg ∧
    ((random_hflip probeImg (1/2) (1/4) = probeImg ↔ (1/2 : ℚ) > 1/4) ∧
     (random_hflip probeImg (1/2) (1/4) = flip3 probeImg ↔ ¬ (1/2 : ℚ) > 1/4)) :=
  ⟨by decide, random_hflip_unflipped_iff probeImg (1/2) (1/4) (by decide)⟩

/-- C8. With aug_prob = 0 and gate draws from [0, 1), AugWrapper.forward
never takes the augmentation branch: two calls under any two draw records
agree, and both equal the wrapped discriminator applied to the unmodified
input. -/
theorem aug_prob_zero_deterministic {α : Type} (Df : Img → α) (images : Img)
    (d1 d2 : Draws) (h1 : 0 ≤ d1.gate) (h2 : 0 ≤ d2.gate) :
    (AugWrapper.init Df 128 0).forward images d1 =
      (AugWrapper.init Df 128 0).forward images d2 ∧
    (AugWrapper.init Df 128 0).forward images d1 = Df images := by
  unfold AugWrapper.forward AugWrapper.init
  rw [if_neg (not_lt.mpr h1), if_neg (not_lt.mpr h2)]
  exact ⟨rfl, rfl⟩

/-- C8 witness: determinism at a concrete input under two different draw
records. -/
theorem aug_prob_zero_deterministic_witness :
    (0 : ℚ) ≤ (Draws.mk 0 0 0 0 0).gate ∧ (0 : ℚ) ≤ (Draws.mk (1/2) 1 1 1 1).gate ∧
    ((AugWrapper.init (fun i => i) 128 0).forward probeImg (Draws.mk 0 0 0 0 0) =
       (AugWrapper.init (fun i => i) 128 0).forward probeImg (Draws.mk (1/2) 1 1 1 1) ∧
     (AugWrapper.init (fun i => i) 128 0).forward probeImg (Draws.mk 0 0 0 0 0) = probeImg) :=
  ⟨by norm_num, by norm_num,
   aug_prob_zero_deterministic (fun i => i) probeImg (Draws.mk 0 0 0 0 0)
     (Draws.mk (1/2) 1 1 1 1) (by norm_num) (by norm_num)⟩

/-- C9. random_hflip with the flip branch forced on both calls (the draw is
not below prob either time) is an involution: flipping the width dimension
twice returns the original tensor exactly. -/
theorem random_hflip_involution (t : Img) (p1 u1 p2 u2 : ℚ)
    (h1 : ¬ p1 > u1) (h2 : ¬ p2 > u2) :
    random_hflip (random_hflip t p1 u1) p2 u2 = t := by
  unfold random_hflip
  rw [if_neg h1, if_neg h2]
  exact flip3_flip3 t

/-- C9 witness: the double flip at a concrete tensor with prob forced to
always-flip. -/
theorem random_hflip_involution_witness :
    (¬ (0 : ℚ) > 0) ∧ (¬ (0 : ℚ) > 0) ∧
    random_hflip (random_hflip probeImg 0 0) 0 0 = probeImg :=
  ⟨by norm_num, by norm_num,
   random_hflip_involution probeImg 0 0 0 0 (by norm_num) (by norm_num)⟩

/-- C4 counterexample. Inside the claimed domain (square side n = 1 ≥ 1,
scale 1/2 in (0,1)), the crop side int(1 * 1/2) is 0 and F.interpolate
raises RuntimeError on the zero-size crop: the program returns no tensor
at all, refuting the claimed shape invariance over the full domain. -/
theorem random_crop_and_resize_zero_crop_errors :
    isRect4 [[[[5]]]] 1 1 1 1 ∧ (0 : ℚ) < 1/2 ∧ (1/2 : ℚ) < 1 ∧
    random_crop_and_resizeE [[[[5]]]] (1/2) 0 0 =
      Except.error "RuntimeError: Input and output sizes should be greater than 0" :=
  ⟨by decide, by norm_num, by norm_num,
   by norm_num [random_crop_and_resizeE, lastDimSize, pyInt]⟩

/-- C4 amended. For a nonempty rectangular rank-4 batch with square spatial
side n ≥ 1 and any crop scale strictly between 0 and 1 whose crop side
int(n * scale) is at least 1, random_crop_and_resize does not error and
returns a tensor with the same dimensions (b, c, n, n), for every pair of
offset draws. -/
theorem random_crop_and_resize_shape_guarded (t : Img) (b c n : ℕ) (s uh uw : ℚ)
    (ht : isRect4 t b c n n) (hb : 0 < b) (hc : 0 < c) (hn : 1 ≤ n)
    (hs0 : 0 < s) (hs1 : s < 1) (hcrop : 1 ≤ (pyInt ((n : ℚ) * s)).toNat) :
    random_crop_and_resizeE t s uh uw =
      Except.ok (random_crop_and_resize t s uh uw) ∧
    isRect4 (random_crop_and_resize t s uh uw) b c n n := by
  have hsize : lastDimSize t = n := lastDimSize_eq t b c n n ht hb hc (by omega)
  refine ⟨?_, crop_resize_rect t b c n s uh uw ht hn⟩
  simp only [random_crop_and_resizeE, hsize]
  have hguard : ¬ ((pyInt ((n : ℚ) * s)).toNat = 0 ∨ n = 0) := by
    push_neg
    exact ⟨by omega, by omega⟩
  rw [if_neg hguard]

/-- C4 witness: no error and shape preservation at a concrete
1 by 1 by 2 by 2 batch with scale 1/2 (crop side int(2 * 1/2) = 1). -/
theorem random_crop_and_resize_shape_guarded_witness :
    isRect4 [[[[1, 2], [3, 4]]]] 1 1 2 2 ∧ 0 < 1 ∧ 0 < 1 ∧ 1 ≤ 2 ∧
    (0 : ℚ) < 1/2 ∧ (1/2 : ℚ) < 1 ∧ 1 ≤ (pyInt (((2 : ℕ) : ℚ) * (1/2))).toNat ∧
    (random_crop_and_resizeE [[[[1, 2], [3, 4]]]] (1/2) 0 0 =
       Except.ok (random_crop_and_resize [[[[1, 2], [3, 4]]]] (1/2) 0 0) ∧
     isRect4 (random_crop_and_resize [[[[1, 2], [3, 4]]]] (1/2) 0 0) 1 1 2 2) :=
  ⟨by decide, by decide, by decide, by decide, by norm_num, by norm_num,
   by norm_num [pyInt],
   random_crop_and_resize_shape_guarded [[[[1, 2], [3, 4]]]] 1 1 2 (1/2) 0 0
     (by decide) (by decide) (by decide) (by decide) (by norm_num) (by norm_num)
     (by norm_num [pyInt])⟩

/-- C5. With scale exactly 1, random_crop_and_resize is a no-op: the offset
range dsize is 0 so both drawn offsets are 0, the crop is the full image,
and the bilinear resize back to the same size reproduces the input exactly
(in exact rational arithmetic; no error is possible in the model). -/
theorem scale_one_noop (t : Img) (b c n : ℕ) (uh uw : ℚ)
    (ht : isRect4 t b c n n) (hn : 1 ≤ n) :
    cropOffset uh 0 = 0 ∧ random_crop_and_resize t 1 uh uw = t := by
  have hco : ∀ u : ℚ, cropOffset u 0 = 0 := by
    intro u
    simp [cropOffset, pyInt]
  refine ⟨hco uh, ?_⟩
  obtain ⟨hlen, hch⟩ := ht
  simp only [random_crop_and_resize]
  have hnewsize : ((pyInt ((lastDimSize t : ℚ) * 1)).toNat) = lastDimSize t := by
    simp [pyInt]
  rw [hnewsize]
  simp only [Nat.sub_self, hco, Nat.zero_add]
  rw [List.map_map]
  conv_rhs => rw [← List.map_id t]
  apply List.map_congr_left
  intro ch hchmem
  obtain ⟨hclen, him⟩ := hch ch hchmem
  simp only [Function.comp_apply, List.map_map, id_eq]
  conv_rhs => rw [← List.map_id ch]
  apply List.map_congr_left
  intro im himmem
  obtain ⟨hilen, hrow⟩ := him im himmem
  simp only [Function.comp_apply, id_eq]
  have hb : 0 < b := by
    rw [← hlen]
    exact List.length_pos.mpr (List.ne_nil_of_mem hchmem)
  have hc : 0 < c := by
    rw [← hclen]
    exact List.length_pos.mpr (List.ne_nil_of_mem himmem)
  have hsize : lastDimSize t = n := lastDimSize_eq t b c n n ⟨hlen, hch⟩ hb hc (by omega)
  rw [hsize]
  rw [slice2_full im n hilen]
  have hrows : im.map (slice2 0 n) = im := by
    conv_rhs => rw [← List.map_id im]
    apply List.map_congr_left
    intro row hrowmem
    rw [slice2_full row n (hrow row hrowmem), id_eq]
  rw [hrows]
  exact interp2d_id im n hn hilen hrow

/-- C5 witness: the degenerate crop at scale 1 on a concrete 2 by 2 image. -/
theorem scale_one_noop_witness :
    isRect4 [[[[1, 2], [3, 4]]]] 1 1 2 2 ∧ 1 ≤ 2 ∧
    (cropOffset 0 0 = 0 ∧
     random_crop_and_resize [[[[1, 2], [3, 4]]]] 1 0 0 = [[[[1, 2], [3, 4]]]]) :=
  ⟨by decide, by decide,
   scale_one_noop [[[[1, 2], [3, 4]]]] 1 1 2 0 0 (by decide) (by decide)⟩

/-- C6. create_dataset is a view over the underlying dataset: for an
underlying length L repeated R times it reports length L times R, and for
every i below L times (R − 1), indices i and i + L resolve to the same
underlying sample, namely the element at underlying index i mod L. -/
theorem create_dataset_view {α : Type} [Inhabited α] (d : Dataset α) (R i : ℕ)
    (hi : i < d.len * (R - 1)) :
    (create_dataset d R).len = d.len * R ∧
    (create_dataset d R).get (i + d.len) = (create_dataset d R).get i ∧
    (create_dataset d R).get i = d.get (i % d.len) := by
  have hL : 0 < d.len := by
    rcases Nat.eq_zero_or_pos d.len with h | h
    · rw [h] at hi
      simp at hi
    · exact h
  have hR : 1 ≤ R := by
    rcases Nat.eq_zero_or_pos R with h | h
    · rw [h] at hi
      simp at hi
    · exact h
  have hi1 : i < d.len * R :=
    lt_of_lt_of_le hi (Nat.mul_le_mul_left _ (Nat.sub_le R 1))
  have hi2 : i + d.len < d.len * R := by
    have hs : d.len * (R - 1) + d.len = d.len * R := by
      have : R - 1 + 1 = R := Nat.sub_add_cancel hR
      calc d.len * (R - 1) + d.len = d.len * (R - 1 + 1) := by ring
        _ = d.len * R := by rw [this]
    omega
  refine ⟨?_, ?_, ?_⟩
  · simp [create_dataset, concatDataset, List.map_replicate, List.sum_replicate,
      smul_eq_mul, mul_comm]
  · rw [concatGet_replicate d R (i + d.len) hL hi2,
      concatGet_replicate d R i hL hi1, Nat.add_mod_right]
  · exact concatGet_replicate d R i hL hi1

/-- C6 witness: a length-2 dataset repeated 3 times, checked at index 1. -/
theorem create_dataset_view_witness :
    1 < (Dataset.mk 2 (fun k => 10 * k)).len * (3 - 1) ∧
    ((create_dataset (Dataset.mk 2 (fun k => 10 * k)) 3).len =
        (Dataset.mk 2 (fun k => 10 * k)).len * 3 ∧
      (create_dataset (Dataset.mk 2 (fun k => 10 * k)) 3).get
          (1 + (Dataset.mk 2 (fun k => 10 * k)).len) =
        (create_dataset (Dataset.mk 2 (fun k => 10 * k)) 3).get 1 ∧
      (create_dataset (Dataset.mk 2 (fun k => 10 * k)) 3).get 1 =
        (Dataset.mk 2 (fun k => 10 * k)).get
          (1 % (Dataset.mk 2 (fun k => 10 * k)).len)) :=
  ⟨by decide, create_dataset_view (Dataset.mk 2 (fun k => 10 * k)) 3 1 (by decide)⟩

/-- C7. AugWrapper.forward never mutates its input tensor: at store level,
for every store, valid input reference and draw record, the object the
input reference points to is unchanged after the call, in both the
augmentation and the pass-through branch. -/
theorem forward_frame (Df : Img → Img) (p : ℚ) (s : Store) (r : ℕ) (d : Draws)
    (hr : r < s.length) :
    readS (forwardS Df p s r d).1 r = readS s r := by
  have hread : ∀ (st : Store) (v : Img), r < st.length → readS (st ++ [v]) r = readS st r :=
    fun st v h => readS_append st v r h
  simp only [forwardS, hflipS, cropResizeS, allocS]
  by_cases hg : d.gate < p
  · by_cases hf : (1 : ℚ)/2 > d.flipU
    · simp only [if_pos hg, if_pos hf]
      rw [hread _ _ (by simp; omega), hread _ _ hr]
    · simp only [if_pos hg, if_neg hf]
      rw [hread _ _ (by simp; omega), hread _ _ (by simp; omega), hread _ _ hr]
  · simp only [if_neg hg]
    rw [hread _ _ hr]

/-- C7 witness: the input cell of a concrete one-element store is unchanged
by a forward call. -/
theorem forward_frame_witness :
    0 < ([probeImg] : Store).length ∧
    readS (forwardS (fun i => i) (1/2) [probeImg] 0 (Draws.mk 0 0 0 0 0)).1 0 =
      readS [probeImg] 0 :=
  ⟨by decide, forward_frame (fun i => i) (1/2) [probeImg] 0 (Draws.mk 0 0 0 0 0)
    (by decide)⟩

/-- C10. AugWrapper.__init__ discards its image_size argument, so two
wrappers built with different image_size values over the same discriminator
and probability produce identical forward outputs on every input and every
draw record. -/
theorem image_size_never_used {α : Type} (Df : Img → α) (p : ℚ) (s1 s2 : ℕ)
    (images : Img) (d : Draws) :
    (AugWrapper.init Df s1 p).forward images d =
      (AugWrapper.init Df s2 p).forward images d := rfl

end FoodGan
